import Mathlib

/-!
Verification development for the paper-readar repository.

Shallow embedding of the pipeline core:
* `services/tts-service-v2/tts_engine.py` — `TextPreprocessor.clean_text`
  (the rule-based text normalizer), `TTSEngine.validate_voice`,
  `TTSEngine.synthesize` (voice defaulting, preprocessing, RTF metadata);
* `services/tts-service-v2/main.py` — `SynthesizeRequest` field validation
  (text length bounds, speed in [0.5, 2.0], non-whitespace text) and the
  `/synthesize` endpoint flow;
* `services/text-processing/main.py` — the per-stage model lifecycle
  (`load_stage1_model`, `unload_stage1_model`, ...) and the two-stage
  `process_text` pipeline with skip flags.

Texts are `List Char`.  Each Python `re.sub` call is embedded as a
single left-to-right scan (`substF`) with a per-pattern matcher that
follows CPython's leftmost / greedy / backtracking semantics for that
concrete pattern; replaced spans are not rescanned, exactly as in
`re.sub`.  Character classes (`\s`, `\d`, `\w`, ...) are modelled over
ASCII, which covers every character these patterns mention.
-/

/-! ## Character classes -/

/-- Python `\s` (ASCII range): space, tab, newline, carriage return,
vertical tab, form feed. -/
def isWs (c : Char) : Bool :=
  c = ' ' || c = '\t' || c = '\n' || c = '\r' || c = Char.ofNat 11 || c = Char.ofNat 12

/-- The punctuation class `[.,;:!?]` used by `clean_text`'s
punctuation-spacing rules. -/
def isPunct (c : Char) : Bool :=
  c = '.' || c = ',' || c = ';' || c = ':' || c = '!' || c = '?'

/-- Python `\w` (ASCII): letters, digits, underscore.  Used for the word
boundaries `\b` in the email pattern. -/
def isWordChar (c : Char) : Bool := c.isAlpha || c.isDigit || c = '_'

/-- The local-part class `[A-Za-z0-9._%+-]` of the email pattern. -/
def isLocalChar (c : Char) : Bool :=
  c.isAlpha || c.isDigit || c = '.' || c = '_' || c = '%' || c = '+' || c = '-'

/-- The domain class `[A-Za-z0-9.-]` of the email pattern. -/
def isDomChar (c : Char) : Bool := c.isAlpha || c.isDigit || c = '.' || c = '-'

/-- The top-level-domain class `[A-Z|a-z]` of the email pattern (the `|`
inside the character class is a literal bar, as in the source pattern). -/
def isTldChar (c : Char) : Bool := c.isAlpha || c = '|'

/-- Left smart double quote U+201C. -/
def smartLdq : Char := Char.ofNat 0x201C
/-- Right smart double quote U+201D. -/
def smartRdq : Char := Char.ofNat 0x201D
/-- Left smart single quote U+2018. -/
def smartLsq : Char := Char.ofNat 0x2018
/-- Right smart single quote U+2019. -/
def smartRsq : Char := Char.ofNat 0x2019

/-- String literal to character list. -/
def toL (s : String) : List Char := s.toList

instance {ε α : Type} [DecidableEq ε] [DecidableEq α] : DecidableEq (Except ε α) := fun x y =>
  match x, y with
  | .ok a, .ok b =>
    match decEq a b with
    | isTrue h => isTrue (h ▸ rfl)
    | isFalse h => isFalse (fun hh => h (Except.ok.inj hh))
  | .error a, .error b =>
    match decEq a b with
    | isTrue h => isTrue (h ▸ rfl)
    | isFalse h => isFalse (fun hh => h (Except.error.inj hh))
  | .ok _, .error _ => isFalse (fun hh => Except.noConfusion hh)
  | .error _, .ok _ => isFalse (fun hh => Except.noConfusion hh)

/-! ## Generic `re.sub` scan

A step function inspects the current character `c` and the rest of the
text `cs`; on a match it returns the replacement chunk and how many
characters of `cs` (beyond `c`) the match consumed.  `substF` scans left
to right, emitting replacements and never rescanning them — the
semantics of `re.sub`.  `fuel` is an upper bound on the number of scan
steps; `applySub` supplies `length + 1`, which always suffices because
every step consumes at least one character. -/

def substF (step : Char → List Char → Option (List Char × Nat)) :
    Nat → List Char → List Char
  | 0, l => l
  | _ + 1, [] => []
  | fuel + 1, c :: cs =>
    match step c cs with
    | some (out, n) => out ++ substF step fuel (cs.drop n)
    | none => c :: substF step fuel cs

def applySub (step : Char → List Char → Option (List Char × Nat)) (l : List Char) : List Char :=
  substF step (l.length + 1) l

/-- Does the pattern recognised by `step` match at some position of `l`? -/
def existsMatchF (step : Char → List Char → Option (List Char × Nat)) : List Char → Bool
  | [] => false
  | c :: cs => (step c cs).isSome || existsMatchF step cs

/-- Wrap a pure match-length function as a deletion step (replacement
is the empty string, as for every removal pattern of `clean_text`). -/
def delStep (f : Char → List Char → Option Nat) (c : Char) (cs : List Char) :
    Option (List Char × Nat) :=
  (f c cs).map (fun n => ([], n))

/-! ## Pattern matchers (`TextPreprocessor.PATTERNS`) -/

/-- The optional group `(?:\s+et\s+al\.?)?` inside `citations_parens`.
Returns the number of characters consumed (`0` when the group does not
match, in which case it consumes nothing — the group is optional). -/
def etAlGroup (l : List Char) : Nat :=
  let w1 := (l.takeWhile isWs).length
  if w1 = 0 then 0 else
  match l.drop w1 with
  | 'e' :: 't' :: r =>
    let w2 := (r.takeWhile isWs).length
    if w2 = 0 then 0 else
    match r.drop w2 with
    | 'a' :: 'l' :: r2 =>
      match r2 with
      | '.' :: _ => w1 + 2 + w2 + 3
      | _ => w1 + 2 + w2 + 2
    | _ => 0
  | _ => 0

/-- `citations_parens`: `\([A-Z][a-z]+(?:\s+et\s+al\.?)?,?\s+\d{4}[a-z]?\)`.
Returns the number of characters the match consumes beyond the opening
parenthesis. -/
def citParensMatch (c : Char) (cs : List Char) : Option Nat :=
  if c = '(' then
    match cs with
    | u :: r =>
      if u.isUpper then
        let lo := (r.takeWhile Char.isLower).length
        if lo = 0 then none else
        let r2 := r.drop lo
        let g := etAlGroup r2
        let r3 := r2.drop g
        let (cm, r4) := match r3 with
          | ',' :: rr => (1, rr)
          | _ => (0, r3)
        let w := (r4.takeWhile isWs).length
        if w = 0 then none else
        match r4.drop w with
        | d1 :: d2 :: d3 :: d4 :: r5 =>
          if d1.isDigit && d2.isDigit && d3.isDigit && d4.isDigit then
            match r5 with
            | x :: rest =>
              if x.isLower then
                match rest with
                | ')' :: _ => some (1 + lo + g + cm + w + 4 + 1 + 1)
                | _ => none
              else if x = ')' then some (1 + lo + g + cm + w + 4 + 1)
              else none
            | [] => none
          else none
        | _ => none
      else none
    | [] => none
  else none

def stepCitParens : Char → List Char → Option (List Char × Nat) := delStep citParensMatch

/-- The tail `(?:,\s*\d+)*\]` of `citations_brackets`, scanned with fuel;
returns the number of characters consumed including the closing `]`. -/
def bracketTail : Nat → List Char → Option Nat
  | 0, _ => none
  | _ + 1, ']' :: _ => some 1
  | fuel + 1, ',' :: r =>
    let w := (r.takeWhile isWs).length
    let d := (((r.drop w).takeWhile Char.isDigit)).length
    if d = 0 then none
    else
      match bracketTail fuel ((r.drop w).drop d) with
      | some t => some (1 + w + d + t)
      | none => none
  | _ + 1, _ => none

/-- `citations_brackets`: `\[\d+(?:,\s*\d+)*\]`. -/
def citBracketsMatch (c : Char) (cs : List Char) : Option Nat :=
  if c = '[' then
    let d1 := (cs.takeWhile Char.isDigit).length
    if d1 = 0 then none
    else
      match bracketTail (cs.length + 1) (cs.drop d1) with
      | some t => some (d1 + t)
      | none => none
  else none

def stepCitBrackets : Char → List Char → Option (List Char × Nat) := delStep citBracketsMatch

/-- `et_al`: `\s+et\s+al\.`. -/
def etAlMatch (c : Char) (cs : List Char) : Option Nat :=
  if isWs c then
    let w1 := (cs.takeWhile isWs).length
    match cs.drop w1 with
    | 'e' :: 't' :: r =>
      let w2 := (r.takeWhile isWs).length
      if w2 = 0 then none else
      match r.drop w2 with
      | 'a' :: 'l' :: '.' :: _ => some (w1 + 2 + w2 + 3)
      | _ => none
    | _ => none
  else none

def stepEtAl : Char → List Char → Option (List Char × Nat) := delStep etAlMatch

/-- `urls`: `https?://\S+`. -/
def urlMatch (c : Char) (cs : List Char) : Option Nat :=
  if c = 'h' then
    match cs with
    | 't' :: 't' :: 'p' :: r =>
      let (s, r2) := match r with
        | 's' :: r' => (1, r')
        | _ => (0, r)
      match r2 with
      | ':' :: '/' :: '/' :: r3 =>
        let n := (r3.takeWhile (fun c => !(isWs c))).length
        if n = 0 then none else some (3 + s + 3 + n)
      | _ => none
    | _ => none
  else none

def stepUrl : Char → List Char → Option (List Char × Nat) := delStep urlMatch

/-- Backtracking over the TLD length `m` of `[A-Z|a-z]{2,}\b` (greedy:
largest `m ≥ 2` whose right edge is a word boundary). -/
def tryTld (tl : List Char) : Nat → Option Nat
  | 0 => none
  | m + 1 =>
    if m + 1 < 2 then none
    else
      let lw := match tl.get? m with
        | some x => isWordChar x
        | none => false
      let nw := match tl.get? (m + 1) with
        | some x => isWordChar x
        | none => false
      if lw ≠ nw then some (m + 1) else tryTld tl m

/-- Backtracking over the domain length `k` of `[A-Za-z0-9.-]+` (greedy:
largest `k` such that a `.` and a valid TLD follow).  Returns `(k, m)`. -/
def tryDom (ds : List Char) : Nat → Option (Nat × Nat)
  | 0 => none
  | k + 1 =>
    match ds.drop (k + 1) with
    | '.' :: tl =>
      let tm := (tl.takeWhile isTldChar).length
      match tryTld tl tm with
      | some m => some (k + 1, m)
      | none => tryDom ds k
    | _ => tryDom ds k

/-- `emails`: `\b[A-Za-z0-9._%+-]+@[A-Za-z0-9.-]+\.[A-Z|a-z]{2,}\b`,
replaced by the empty string.  `prev` is the character before the scan
position in the original text (needed for the leading `\b`).  Returns
the number of characters consumed beyond `c`. -/
def stepEmail (prev : Option Char) (c : Char) (cs : List Char) : Option Nat :=
  let pw := match prev with
    | some p => isWordChar p
    | none => false
  if pw = isWordChar c then none
  else if !(isLocalChar c) then none
  else
    let lrun := (cs.takeWhile isLocalChar).length
    match cs.drop lrun with
    | '@' :: ds =>
      let dmax := (ds.takeWhile isDomChar).length
      if dmax = 0 then none
      else
        match tryDom ds dmax with
        | some (k, m) => some (lrun + 1 + k + 1 + m)
        | none => none
    | _ => none

/-- The `re.sub` scan for the email pattern, threading the previous
original character for the leading word boundary. -/
def subEmailsF : Nat → Option Char → List Char → List Char
  | 0, _, l => l
  | _ + 1, _, [] => []
  | fuel + 1, prev, c :: cs =>
    match stepEmail prev c cs with
    | some n => subEmailsF fuel (some ((cs.take n).getLastD c)) (cs.drop n)
    | none => c :: subEmailsF fuel (some c) cs

/-- The replacement token ` [equation] ` used for LaTeX spans. -/
def eqToken : List Char := toL " [equation] "

/-- `latex_display`: `\$\$[^$]+\$\$`, replaced by ` [equation] `. -/
def stepLatexDisplay (c : Char) (cs : List Char) : Option (List Char × Nat) :=
  if c = '$' then
    match cs with
    | '$' :: r =>
      let run := (r.takeWhile (fun x => x ≠ '$')).length
      if run = 0 then none
      else
        match r.drop run with
        | '$' :: '$' :: _ => some (eqToken, 1 + run + 2)
        | _ => none
    | _ => none
  else none

/-- `latex_inline`: `\$[^$]+\$`, replaced by ` [equation] `. -/
def stepLatexInline (c : Char) (cs : List Char) : Option (List Char × Nat) :=
  if c = '$' then
    let run := (cs.takeWhile (fun x => x ≠ '$')).length
    if run = 0 then none
    else
      match cs.drop run with
      | '$' :: _ => some (eqToken, run + 1)
      | _ => none
  else none

/-- `latex_commands`: `\\[a-zA-Z]+\{[^}]*\}`. -/
def latexCmdMatch (c : Char) (cs : List Char) : Option Nat :=
  if c = '\\' then
    let letters := (cs.takeWhile Char.isAlpha).length
    if letters = 0 then none
    else
      match cs.drop letters with
      | '{' :: r2 =>
        let inner := (r2.takeWhile (fun x => x ≠ '}')).length
        match r2.drop inner with
        | '}' :: _ => some (letters + 1 + inner + 1)
        | _ => none
      | _ => none
  else none

def stepLatexCmd : Char → List Char → Option (List Char × Nat) := delStep latexCmdMatch

/-- The second alternative `[A-Z][a-z]+` of `parenthetical_abbrev`. -/
def parenAbbrevAlt2 (cs : List Char) : Option Nat :=
  match cs with
  | x :: r =>
    if x.isUpper then
      let lo := (r.takeWhile Char.isLower).length
      if lo = 0 then none
      else
        match r.drop lo with
        | ')' :: _ => some (1 + lo + 1)
        | _ => none
    else none
  | [] => none

/-- `parenthetical_abbrev`: `\((?:[A-Z]{2,}|[A-Z][a-z]+)\)`.  The first
alternative is tried first, as in Python. -/
def parenAbbrevMatch (c : Char) (cs : List Char) : Option Nat :=
  if c = '(' then
    let u := (cs.takeWhile Char.isUpper).length
    if 2 ≤ u then
      match cs.drop u with
      | ')' :: _ => some (u + 1)
      | _ => parenAbbrevAlt2 cs
    else parenAbbrevAlt2 cs
  else none

def stepParenAbbrev : Char → List Char → Option (List Char × Nat) := delStep parenAbbrevMatch

/-- `multiple_spaces`: `\s+`, replaced by a single blank. -/
def stepWsRun (c : Char) (cs : List Char) : Option (List Char × Nat) :=
  if isWs c then some ([' '], (cs.takeWhile isWs).length) else none

/-! ## Named substitution passes -/

def subParens (l : List Char) : List Char := applySub stepCitParens l
def subBrackets (l : List Char) : List Char := applySub stepCitBrackets l
def subEtAl (l : List Char) : List Char := applySub stepEtAl l
def subUrls (l : List Char) : List Char := applySub stepUrl l
def subEmails (l : List Char) : List Char := subEmailsF (l.length + 1) none l
def subLatexDisplay (l : List Char) : List Char := applySub stepLatexDisplay l
def subLatexInline (l : List Char) : List Char := applySub stepLatexInline l
def subLatexCmd (l : List Char) : List Char := applySub stepLatexCmd l
def subParenAbbrev (l : List Char) : List Char := applySub stepParenAbbrev l

/-! ## Whitespace / quote / punctuation normalization tail -/

/-- `re.sub(r'\s+', ' ', ...)`: collapse each whitespace run to one
blank. -/
def collapseWsF : Nat → List Char → List Char
  | 0, l => l
  | _ + 1, [] => []
  | fuel + 1, c :: cs =>
    if isWs c then ' ' :: collapseWsF fuel (cs.dropWhile isWs)
    else c :: collapseWsF fuel cs

def collapseWs (l : List Char) : List Char := collapseWsF (l.length + 1) l

/-- The four smart-quote `str.replace` calls, combined into one
character map (the replaced characters are distinct and the
replacements are never themselves replaced). -/
def normQuote (c : Char) : Char :=
  if c = smartLdq then '"'
  else if c = smartRdq then '"'
  else if c = smartLsq then '\''
  else if c = smartRsq then '\''
  else c

def mapQuotes (l : List Char) : List Char := l.map normQuote

/-- `re.sub(r'\s+([.,;:!?])', r'\1', ...)`: drop whitespace runs that
directly precede punctuation. -/
def fixBeforeF : Nat → List Char → List Char
  | 0, l => l
  | _ + 1, [] => []
  | fuel + 1, c :: cs =>
    if isWs c then
      match cs.dropWhile isWs with
      | p :: rest =>
        if isPunct p then p :: fixBeforeF fuel rest
        else c :: fixBeforeF fuel cs
      | [] => c :: fixBeforeF fuel cs
    else c :: fixBeforeF fuel cs

def fixBefore (l : List Char) : List Char := fixBeforeF (l.length + 1) l

/-- `re.sub(r'([.,;:!?])([A-Za-z])', r'\1 \2', ...)`: insert a blank
between punctuation and a following letter.  The match consumes both
characters, so the scan resumes after the letter, as in `re.sub`. -/
def fixAfterF : Nat → List Char → List Char
  | 0, l => l
  | _ + 1, [] => []
  | _ + 1, [c] => [c]
  | fuel + 1, c :: d :: cs =>
    if isPunct c && d.isAlpha then c :: ' ' :: d :: fixAfterF fuel cs
    else c :: fixAfterF fuel (d :: cs)

def fixAfter (l : List Char) : List Char := fixAfterF (l.length + 1) l

/-- Python `str.strip()` (ASCII whitespace). -/
def stripEnds (l : List Char) : List Char :=
  ((l.dropWhile isWs).reverse.dropWhile isWs).reverse

/-! ## `TextPreprocessor.clean_text` -/

/-- The failure branches of `clean_text` (all raised as
`TextPreprocessingError` in the source, distinguished by message):
`emptyInput` — "Text is empty"; `emptyOutput` — "Text became empty
after preprocessing"; `tooShort` — "Text too short after
preprocessing" (fewer than 3 characters). -/
inductive CleanErr where
  | emptyInput
  | emptyOutput
  | tooShort
  deriving DecidableEq, Repr

/-- The removal passes of `clean_text`, lines 91–106: citation removal
(gated by `remove_citations`), then URLs, emails, LaTeX display/inline
spans, LaTeX commands, and parenthetical abbreviations, in source
order. -/
def removalPass (l : List Char) (rc : Bool) : List Char :=
  let c1 := if rc then subEtAl (subBrackets (subParens l)) else l
  subParenAbbrev (subLatexCmd (subLatexInline (subLatexDisplay (subEmails (subUrls c1)))))

/-- The whitespace tail of `clean_text`, lines 109–122: whitespace-run
collapse, smart-quote normalization, punctuation spacing repair, and
the final `strip()`. -/
def wsPass (l : List Char) : List Char :=
  stripEnds (fixAfter (fixBefore (mapQuotes (collapseWs l))))

/-- The full rewriting pipeline of `clean_text` (the value of the
`cleaned` variable at line 122, before the validity checks). -/
def cleanedCore (l : List Char) (rc : Bool) : List Char :=
  wsPass (removalPass l rc)

/-- `TextPreprocessor.clean_text(text, remove_citations)`.  Fails with
`emptyInput` when the input is empty or whitespace-only (line 83), with
`emptyOutput` when the cleaned text is empty (line 125), and with
`tooShort` when it has fewer than 3 characters (line 130). -/
def clean (l : List Char) (rc : Bool) : Except CleanErr (List Char) :=
  if l.all isWs then .error .emptyInput
  else if cleanedCore l rc = [] then .error .emptyOutput
  else if (cleanedCore l rc).length < 3 then .error .tooShort
  else .ok (cleanedCore l rc)

/-- The citation-removal passes in source order (lines 92–94). -/
def citationPass (l : List Char) : List Char :=
  subEtAl (subBrackets (subParens l))

/-- Modelled from the spec's wording for claim C7: the non-citation
categories in their stated order — URL and email removal,
equation-placeholder substitution, command stripping,
parenthetical-abbreviation removal, whitespace and quote
normalization (including the final strip).  To be compared with
`cleanedCore`. -/
def specNonCitationCategories (l : List Char) : List Char :=
  wsPass (subParenAbbrev (subLatexCmd (subLatexInline (subLatexDisplay (subEmails (subUrls l))))))

/-- Does `pat` occur at the start of `l`? -/
def startsWithSeq : List Char → List Char → Bool
  | [], _ => true
  | _ :: _, [] => false
  | p :: ps, c :: cs => p = c && startsWithSeq ps cs

/-- Does `pat` occur as a contiguous run somewhere in `l`? -/
def containsSeq (pat : List Char) : List Char → Bool
  | [] => startsWithSeq pat []
  | c :: cs => startsWithSeq pat (c :: cs) || containsSeq pat cs

/-! ## Invariant predicates for the normalized output -/

/-- No adjacent pair of characters satisfies `bad`. -/
def noPair (bad : Char → Char → Bool) : List Char → Bool
  | a :: b :: rest => !(bad a b) && noPair bad (b :: rest)
  | _ => true

/-- Every whitespace character is a plain blank. -/
def allWsBlank (l : List Char) : Bool := l.all (fun c => !(isWs c) || c = ' ')

/-- No two adjacent whitespace characters. -/
def noDoubleWs (l : List Char) : Bool := noPair (fun a b => isWs a && isWs b) l

/-- No whitespace character directly before punctuation. -/
def noWsPunct (l : List Char) : Bool := noPair (fun a b => isWs a && isPunct b) l

/-- No punctuation character directly followed by a letter. -/
def noPunctAlpha (l : List Char) : Bool := noPair (fun a b => isPunct a && b.isAlpha) l

/-- No smart-quote characters. -/
def noSmartQuote (l : List Char) : Bool :=
  l.all (fun c => !(c = smartLdq || c = smartRdq || c = smartLsq || c = smartRsq))

/-- The head of `l`, if any, is not whitespace. -/
def firstNotWs (l : List Char) : Prop := ∀ c, l.head? = some c → isWs c = false

/-- The last character of `l`, if any, is not whitespace. -/
def lastNotWs (l : List Char) : Prop := firstNotWs l.reverse

/-! ## Model lifecycle (`services/text-processing/main.py`)

The source keeps three module-level globals per stage (`stageN_model`,
`stageN_tokenizer`, `stageN_pipeline`); a stage counts as loaded when
its pipeline global is not `None`.  `load_stageN_model` returns
immediately when the pipeline is present and otherwise assigns all
three; `unload_stageN_model` returns immediately when the pipeline is
absent and otherwise clears all three. -/

structure StageVars where
  mdl : Bool
  tok : Bool
  pipe : Bool
  deriving DecidableEq, Repr

structure ServiceState where
  s1 : StageVars
  s2 : StageVars
  deriving DecidableEq, Repr

/-- State at startup in on-demand mode (`LOAD_BOTH_MODELS=false`):
nothing loaded. -/
def initService : ServiceState := ⟨⟨false, false, false⟩, ⟨false, false, false⟩⟩

/-- `load_stage1_model` (lines 180–197). -/
def loadStage1 (s : ServiceState) : ServiceState :=
  if s.s1.pipe then s else { s with s1 := ⟨true, true, true⟩ }

/-- `load_stage2_model` (lines 200–217). -/
def loadStage2 (s : ServiceState) : ServiceState :=
  if s.s2.pipe then s else { s with s2 := ⟨true, true, true⟩ }

/-- `unload_stage1_model` (lines 220–236). -/
def unloadStage1 (s : ServiceState) : ServiceState :=
  if s.s1.pipe then { s with s1 := ⟨false, false, false⟩ } else s

/-- `unload_stage2_model` (lines 239–255). -/
def unloadStage2 (s : ServiceState) : ServiceState :=
  if s.s2.pipe then { s with s2 := ⟨false, false, false⟩ } else s

/-- Sum of the memory footprints of the stages whose model is ready
(`f1`, `f2` are the per-stage footprints; the source logs ~10GB for
stage 1 and ~28GB for stage 2 but never stores or checks a budget). -/
def readyFootprint (f1 f2 : Nat) (s : ServiceState) : Nat :=
  (if s.s1.pipe then f1 else 0) + (if s.s2.pipe then f2 else 0)

/-! ## `process_text` (`services/text-processing/main.py`, lines 333–461)

The generative back-ends are abstracted as functions from the stage
input text to the generated text (`gen1`, `gen2`); the HTTP 503 raised
when a required stage is not loaded is `stageNotLoaded` (the source
message differs between eager and on-demand mode, the status does
not).  Wall-clock timing fields are omitted. -/

structure ProcessRequest where
  text : List Char
  skip1 : Bool
  skip2 : Bool
  deriving DecidableEq, Repr

structure ProcessResponse where
  stage1Output : Option (List Char)
  stage2Output : Option (List Char)
  finalOutput : List Char
  deriving DecidableEq, Repr

inductive ProcErr where
  | stageNotLoaded (stage : Nat)
  deriving DecidableEq, Repr

/-- The `/process` handler.  `s1loaded`/`s2loaded` are whether the
stage pipelines are non-`None`.  Note the response records `None` for a
skipped stage's output (lines 453–454) even though the pass-through
text is carried forward internally, and `final_output` falls back to
`stage1_output` when `stage2_output` is falsy (line 443). -/
def processText (s1loaded s2loaded : Bool)
    (gen1 gen2 : List Char → List Char) (req : ProcessRequest) :
    Except ProcErr ProcessResponse :=
  if !req.skip1 && !s1loaded then .error (.stageNotLoaded 1)
  else
    let st1 := if req.skip1 then req.text else gen1 req.text
    if !req.skip2 && !s2loaded then .error (.stageNotLoaded 2)
    else
      let st2 := if req.skip2 then st1 else gen2 st1
      let final := if st2 = [] then st1 else st2
      .ok ⟨if req.skip1 then none else some st1,
           if req.skip2 then none else some st2,
           final⟩

/-! ## TTS engine (`services/tts-service-v2/tts_engine.py`) -/

/-- Failure kinds of the engine: `modelNotLoaded` (`ModelNotLoadedError`),
`voiceNotFound` (`VoiceNotFoundError`, carrying the truncated sample of
valid voices put in the message), `preprocessing`
(`TextPreprocessingError` propagated from `clean_text`). -/
inductive TTSErr where
  | modelNotLoaded
  | voiceNotFound (sample : List (List Char))
  | preprocessing (e : CleanErr)
  deriving DecidableEq, Repr

/-- Engine state: whether the Kokoro model is loaded, the cached voice
list, the default voice and speed. -/
structure EngineState where
  loaded : Bool
  availableVoices : List (List Char)
  defaultVoice : List Char
  defaultSpeed : ℚ
  deriving DecidableEq, Repr

/-- What `model.create` returns: an audio sample buffer (we keep its
length) and the sample rate. -/
structure AudioOut where
  samples : Nat
  rate : Nat
  deriving DecidableEq, Repr

/-- The timing fields of the metadata dict built in `synthesize`
(lines 376–390).  `processingTime` is the measured wall time, a
parameter of the embedding. -/
structure SynthMeta where
  processingTime : ℚ
  durationSeconds : ℚ
  rtf : ℚ
  deriving DecidableEq, Repr

/-- Lines 377–378: `duration = len(audio) / sample_rate` and
`rtf = processing_time / duration if duration > 0 else 0`. -/
def computeMeta (pt : ℚ) (samples rate : Nat) : SynthMeta :=
  let duration : ℚ := (samples : ℚ) / (rate : ℚ)
  { processingTime := pt
    durationSeconds := duration
    rtf := if 0 < duration then pt / duration else 0 }

/-- `TTSEngine.validate_voice` (lines 279–297): raises when the model
is not loaded, or when the voice is not in the cached list; the error
message embeds the first 10 valid voices. -/
def validateVoice (eng : EngineState) (v : List Char) : Except TTSErr Unit :=
  if !eng.loaded then .error .modelNotLoaded
  else if v ∈ eng.availableVoices then .ok ()
  else .error (.voiceNotFound (eng.availableVoices.take 10))

/-- Line 348: `voice = voice or self.default_voice` — Python treats the
empty string as falsy, so an empty-string voice falls back to the
default, exactly like `None`. -/
def effectiveVoice (voice : Option (List Char)) (dflt : List Char) : List Char :=
  match voice with
  | none => dflt
  | some v => if v = [] then dflt else v

/-- `TTSEngine.synthesize` (lines 315–402).  The Kokoro backend
`model.create` is abstracted as `create` (from processed text, voice
and speed to an audio buffer); the wall time measured around it is the
parameter `pt`. -/
def synthesizeEngine (eng : EngineState)
    (create : List Char → List Char → ℚ → AudioOut) (pt : ℚ)
    (text : List Char) (voice : Option (List Char)) (speed : Option ℚ)
    (preprocess removeCitations : Bool) :
    Except TTSErr (AudioOut × SynthMeta) :=
  if !eng.loaded then .error .modelNotLoaded
  else
    let v := effectiveVoice voice eng.defaultVoice
    let sp := speed.getD eng.defaultSpeed
    match validateVoice eng v with
    | .error e => .error e
    | .ok _ =>
      match (if preprocess then clean text removeCitations else .ok text) with
      | .error e => .error (.preprocessing e)
      | .ok t2 =>
        let audio := create t2 v sp
        .ok (audio, computeMeta pt audio.samples audio.rate)

/-! ## `/synthesize` endpoint (`services/tts-service-v2/main.py`) -/

/-- Failure kinds at the API boundary: `invalidParameter` is pydantic
request validation (HTTP 422 — the realization of the spec's
`InvalidParameterError`), `serviceUnavailable` is HTTP 503 when the
engine is missing or unloaded, `ttsFailure` wraps engine errors. -/
inductive ApiErr where
  | invalidParameter
  | serviceUnavailable
  | ttsFailure (e : TTSErr)
  deriving DecidableEq, Repr

/-- `MAX_TEXT_LENGTH` default. -/
def maxTextLength : Nat := 5000

/-- The validated request model `SynthesizeRequest` (lines 85–121). -/
structure SynthesizeRequest where
  text : List Char
  voice : Option (List Char)
  speed : Option ℚ
  preprocess : Bool
  removeCitations : Bool
  deriving DecidableEq, Repr

/-- Construction of `SynthesizeRequest`: pydantic validates
`min_length=1`/`max_length` on `text`, `ge=0.5`/`le=2.0` on `speed`
when provided, and the `validate_text` field validator rejects
whitespace-only text.  Any violation rejects the request before the
handler body runs. -/
def mkSynthesizeRequest (text : List Char) (voice : Option (List Char))
    (speed : Option ℚ) (preprocess removeCitations : Bool) :
    Except ApiErr SynthesizeRequest :=
  if text.length < 1 then .error .invalidParameter
  else if maxTextLength < text.length then .error .invalidParameter
  else if (match speed with
           | none => false
           | some q => decide (q < 1/2) || decide (2 < q)) then .error .invalidParameter
  else if text.all isWs then .error .invalidParameter
  else .ok ⟨text, voice, speed, preprocess, removeCitations⟩

/-- The `/synthesize` endpoint (lines 273–357): request validation,
then the 503 model-loaded check, then `TTSEngine.synthesize`. -/
def synthesizeApi (eng : EngineState)
    (create : List Char → List Char → ℚ → AudioOut) (pt : ℚ)
    (text : List Char) (voice : Option (List Char)) (speed : Option ℚ)
    (preprocess removeCitations : Bool) :
    Except ApiErr (AudioOut × SynthMeta) :=
  match mkSynthesizeRequest text voice speed preprocess removeCitations with
  | .error e => .error e
  | .ok req =>
    if !eng.loaded then .error .serviceUnavailable
    else
      match synthesizeEngine eng create pt req.text req.voice req.speed
          req.preprocess req.removeCitations with
      | .error e => .error (.ttsFailure e)
      | .ok r => .ok r

-- Sanity checks of the embedding on concrete texts (mirrors the
-- behaviour of the Python functions on the same inputs).
example : clean (toL "(Smith, 2020)") true = .error .emptyOutput := by decide
example : clean (toL "Results show (Smith, 2020) a big [1, 2] effect.") true
    = .ok (toL "Results show a big effect.") := by decide
example : clean (toL "See $x+y$ and \\textbf{bold} text") true
    = .ok (toL "See [equation] and text") := by decide
example : clean (toL "Contact me@example.com or https://x.co now") true
    = .ok (toL "Contact or now") := by decide
example : clean (toL "The (TTS) system (Api) works") true
    = .ok (toL "The system works") := by decide
example : clean (toL "a,b c .") true = .ok (toL "a, b c.") := by decide

/-! ## Lemmas: a deletion scan that changes nothing found no match -/

theorem delStep_out_nil (f : Char → List Char → Option Nat) {c : Char} {cs : List Char}
    {out : List Char} {k : Nat} (h : delStep f c cs = some (out, k)) : out = [] := by
  rcases Option.map_eq_some'.1 h with ⟨m, _, hm⟩
  have := congrArg Prod.fst hm
  simpa using this.symm

theorem substF_del_length (f : Char → List Char → Option Nat) :
    ∀ (fuel : Nat) (l : List Char), (substF (delStep f) fuel l).length ≤ l.length := by
  intro fuel
  induction fuel with
  | zero => intro l; simp [substF]
  | succ n ih =>
    intro l
    cases l with
    | nil => simp [substF]
    | cons c cs =>
      cases hstep : delStep f c cs with
      | none =>
        simp only [substF, hstep, List.length_cons]
        exact Nat.succ_le_succ (ih cs)
      | some p =>
        obtain ⟨out, k⟩ := p
        have hout : out = [] := delStep_out_nil f hstep
        subst hout
        simp only [substF, hstep, List.nil_append, List.length_cons]
        calc (substF (delStep f) n (cs.drop k)).length
            ≤ (cs.drop k).length := ih _
          _ ≤ cs.length := by simp [List.length_drop]
          _ ≤ cs.length + 1 := Nat.le_succ _

theorem substF_del_fix_no_match (f : Char → List Char → Option Nat) :
    ∀ (fuel : Nat) (l : List Char), l.length < fuel →
      substF (delStep f) fuel l = l → existsMatchF (delStep f) l = false := by
  intro fuel
  induction fuel with
  | zero => intro l hl; omega
  | succ n ih =>
    intro l hl hfix
    cases l with
    | nil => rfl
    | cons c cs =>
      cases hstep : delStep f c cs with
      | some p =>
        obtain ⟨out, k⟩ := p
        have hout : out = [] := delStep_out_nil f hstep
        subst hout
        rw [substF, hstep] at hfix
        simp only [List.nil_append] at hfix
        have hlen := substF_del_length f n (cs.drop k)
        rw [hfix] at hlen
        simp [List.length_drop] at hlen
        omega
      | none =>
        rw [substF, hstep] at hfix
        have h2 : substF (delStep f) n cs = cs := List.cons.inj hfix |>.2
        have h3 := ih cs (by simp at hl; omega) h2
        simp [existsMatchF, hstep, h3]

theorem applySub_del_fix_no_match (f : Char → List Char → Option Nat) (l : List Char)
    (h : applySub (delStep f) l = l) : existsMatchF (delStep f) l = false :=
  substF_del_fix_no_match f (l.length + 1) l (Nat.lt_succ_self _) h

/-! ## Character-class facts -/

theorem not_ws_of_punct {c : Char} (h : isPunct c = true) : isWs c = false := by
  simp only [isPunct, Bool.or_eq_true, decide_eq_true_eq] at h
  rcases h with ((((h | h) | h) | h) | h) | h <;> subst h <;> decide

theorem not_alpha_of_ws {c : Char} (h : isWs c = true) : c.isAlpha = false := by
  simp only [isWs, Bool.or_eq_true, decide_eq_true_eq] at h
  rcases h with ((((h | h) | h) | h) | h) | h <;> subst h <;> decide

theorem not_ws_of_alpha {c : Char} (h : c.isAlpha = true) : isWs c = false := by
  cases hw : isWs c
  · rfl
  · rw [not_alpha_of_ws hw] at h
    cases h

theorem not_punct_of_alpha {c : Char} (h : c.isAlpha = true) : isPunct c = false := by
  cases hp : isPunct c
  · rfl
  · simp only [isPunct, Bool.or_eq_true, decide_eq_true_eq] at hp
    rcases hp with ((((h' | h') | h') | h') | h') | h' <;> subst h' <;>
      exact absurd h (by decide)

/-! ## dropWhile facts -/

theorem length_dropWhile_le (p : Char → Bool) (l : List Char) :
    (l.dropWhile p).length ≤ l.length := by
  induction l with
  | nil => simp
  | cons a as ih =>
    by_cases h : p a = true
    · rw [List.dropWhile_cons_of_pos h]
      exact ih.trans (Nat.le_succ _)
    · rw [List.dropWhile_cons_of_neg (by simp [h])]

theorem dropWhile_headFails (p : Char → Bool) (l : List Char) :
    ∀ c, (l.dropWhile p).head? = some c → p c = false := by
  induction l with
  | nil => intro c h; cases h
  | cons a as ih =>
    intro c h
    by_cases ha : p a = true
    · rw [List.dropWhile_cons_of_pos ha] at h
      exact ih c h
    · rw [List.dropWhile_cons_of_neg (by simp [ha])] at h
      cases h
      simpa using ha

theorem dropWhile_eq_self_of_headFails (p : Char → Bool) (l : List Char)
    (h : ∀ c, l.head? = some c → p c = false) : l.dropWhile p = l := by
  cases l with
  | nil => rfl
  | cons a as => exact List.dropWhile_cons_of_neg (by simp [h a rfl])

theorem all_dropWhile (P p : Char → Bool) (l : List Char) (h : l.all P = true) :
    (l.dropWhile p).all P = true := by
  induction l with
  | nil => simp
  | cons a as ih =>
    rw [List.all_cons, Bool.and_eq_true] at h
    by_cases ha : p a = true
    · rw [List.dropWhile_cons_of_pos ha]
      exact ih h.2
    · rw [List.dropWhile_cons_of_neg (by simp [ha])]
      rw [List.all_cons, h.1]
      exact h.2

/-! ## `noPair` toolkit -/

theorem noPair_tail {bad : Char → Char → Bool} {a : Char} {l : List Char}
    (h : noPair bad (a :: l) = true) : noPair bad l = true := by
  cases l with
  | nil => rfl
  | cons b bs =>
    rw [show noPair bad (a :: b :: bs) = (!(bad a b) && noPair bad (b :: bs)) from rfl,
      Bool.and_eq_true] at h
    exact h.2

theorem noPair_head_link {bad : Char → Char → Bool} {a b : Char} {l : List Char}
    (h : noPair bad (a :: b :: l) = true) : bad a b = false := by
  rw [show noPair bad (a :: b :: l) = (!(bad a b) && noPair bad (b :: l)) from rfl,
    Bool.and_eq_true] at h
  simpa using h.1

theorem noPair_cons {bad : Char → Char → Bool} {a : Char} {l : List Char}
    (hl : noPair bad l = true) (hh : ∀ b, l.head? = some b → bad a b = false) :
    noPair bad (a :: l) = true := by
  cases l with
  | nil => rfl
  | cons b bs =>
    have hb : bad a b = false := hh b rfl
    show (!(bad a b) && noPair bad (b :: bs)) = true
    simp [hb, hl]

theorem noPair_append {bad : Char → Char → Bool} :
    ∀ a b : List Char, noPair bad (a ++ b) = true →
      noPair bad a = true ∧ noPair bad b = true := by
  intro a
  induction a with
  | nil => intro b h; exact ⟨rfl, by simpa using h⟩
  | cons x xs ih =>
    intro b h
    rw [List.cons_append] at h
    have ht : noPair bad (xs ++ b) = true := noPair_tail h
    obtain ⟨h1, h2⟩ := ih b ht
    refine ⟨noPair_cons h1 ?_, h2⟩
    intro y hy
    cases xs with
    | nil => cases hy
    | cons z zs =>
      cases hy
      rw [List.cons_append] at h
      exact noPair_head_link h

/-! ## Whitespace-run collapse: invariants and fixpoint -/

theorem collapseWsF_ws {n : Nat} {c : Char} {cs : List Char} (hc : isWs c = true) :
    collapseWsF (n + 1) (c :: cs) = ' ' :: collapseWsF n (cs.dropWhile isWs) := by
  simp [collapseWsF, hc]

theorem collapseWsF_nws {n : Nat} {c : Char} {cs : List Char} (hc : isWs c = false) :
    collapseWsF (n + 1) (c :: cs) = c :: collapseWsF n cs := by
  simp [collapseWsF, hc]

theorem collapse_head (f : Nat) (l : List Char)
    (h : ∀ c, l.head? = some c → isWs c = false) :
    (collapseWsF f l).head? = l.head? := by
  cases f with
  | zero => rfl
  | succ n =>
    cases l with
    | nil => rfl
    | cons c cs =>
      rw [collapseWsF_nws (h c rfl)]
      rfl

theorem allWsBlank_cons {c : Char} {cs : List Char} (hc : (!(isWs c) || c = ' ') = true)
    (hcs : allWsBlank cs = true) : allWsBlank (c :: cs) = true := by
  rw [allWsBlank, List.all_cons, Bool.and_eq_true]
  exact ⟨hc, hcs⟩

theorem allWsBlank_tail {c : Char} {cs : List Char} (h : allWsBlank (c :: cs) = true) :
    allWsBlank cs = true := by
  rw [allWsBlank, List.all_cons, Bool.and_eq_true] at h
  exact h.2

theorem allWsBlank_head {c : Char} {cs : List Char} (h : allWsBlank (c :: cs) = true)
    (hw : isWs c = true) : c = ' ' := by
  rw [allWsBlank, List.all_cons, Bool.and_eq_true] at h
  have := h.1
  rw [hw] at this
  simpa using this

theorem collapse_inv :
    ∀ (f : Nat) (l : List Char), l.length < f →
      allWsBlank (collapseWsF f l) = true ∧ noDoubleWs (collapseWsF f l) = true := by
  intro f
  induction f with
  | zero => intro l h; omega
  | succ n ih =>
    intro l hl
    cases l with
    | nil => exact ⟨rfl, rfl⟩
    | cons c cs =>
      have hcs : cs.length < n := by simpa using hl
      by_cases hc : isWs c = true
      · have hrl : (cs.dropWhile isWs).length < n :=
          Nat.lt_of_le_of_lt (length_dropWhile_le isWs cs) hcs
        obtain ⟨ha1, ha2⟩ := ih _ hrl
        rw [collapseWsF_ws hc]
        constructor
        · exact allWsBlank_cons (by decide) ha1
        · apply noPair_cons ha2
          intro b hb
          rw [collapse_head n _ (dropWhile_headFails isWs cs)] at hb
          have hbw : isWs b = false := dropWhile_headFails isWs cs b hb
          simp [hbw]
      · obtain ⟨ha1, ha2⟩ := ih cs hcs
        have hc' : isWs c = false := by simpa using hc
        rw [collapseWsF_nws hc']
        constructor
        · exact allWsBlank_cons (by simp [hc']) ha1
        · apply noPair_cons ha2
          intro b _
          simp [hc']

theorem collapse_id :
    ∀ (f : Nat) (l : List Char), l.length < f →
      allWsBlank l = true → noDoubleWs l = true → collapseWsF f l = l := by
  intro f
  induction f with
  | zero => intro l h; omega
  | succ n ih =>
    intro l hl h1 h2
    cases l with
    | nil => rfl
    | cons c cs =>
      have hcs : cs.length < n := by simpa using hl
      have h1t : allWsBlank cs = true := allWsBlank_tail h1
      have h2t : noDoubleWs cs = true := noPair_tail h2
      by_cases hc : isWs c = true
      · have hcb : c = ' ' := allWsBlank_head h1 hc
        have hdw : cs.dropWhile isWs = cs := by
          apply dropWhile_eq_self_of_headFails
          intro b hb
          cases cs with
          | nil => cases hb
          | cons d ds =>
            cases hb
            have := noPair_head_link h2
            rw [hc] at this
            simpa using this
        rw [collapseWsF_ws hc, hdw, ih cs hcs h1t h2t, hcb]
      · have hc' : isWs c = false := by simpa using hc
        rw [collapseWsF_nws hc', ih cs hcs h1t h2t]

/-! ## Smart-quote normalization: invariants and fixpoint -/

theorem normQuote_ws (c : Char) : isWs (normQuote c) = isWs c := by
  unfold normQuote
  split_ifs with h1 h2 h3 h4
  · rw [h1]; decide
  · rw [h2]; decide
  · rw [h3]; decide
  · rw [h4]; decide
  · rfl

theorem normQuote_not_smart (c : Char) :
    (!(normQuote c = smartLdq || normQuote c = smartRdq
        || normQuote c = smartLsq || normQuote c = smartRsq)) = true := by
  unfold normQuote
  split_ifs with h1 h2 h3 h4
  · decide
  · decide
  · decide
  · decide
  · simp [h1, h2, h3, h4]

theorem noSmartQuote_mapQuotes (l : List Char) : noSmartQuote (mapQuotes l) = true := by
  induction l with
  | nil => rfl
  | cons c cs ih =>
    rw [mapQuotes, List.map_cons, noSmartQuote, List.all_cons, Bool.and_eq_true]
    exact ⟨normQuote_not_smart c, ih⟩

theorem mapQuotes_id (l : List Char) (h : noSmartQuote l = true) : mapQuotes l = l := by
  induction l with
  | nil => rfl
  | cons c cs ih =>
    rw [noSmartQuote, List.all_cons, Bool.and_eq_true] at h
    obtain ⟨hc, hcs⟩ := h
    rw [Bool.not_eq_true', Bool.or_eq_false_iff, Bool.or_eq_false_iff,
      Bool.or_eq_false_iff] at hc
    obtain ⟨⟨⟨hq1, hq2⟩, hq3⟩, hq4⟩ := hc
    have hc' : normQuote c = c := by
      unfold normQuote
      rw [if_neg (of_decide_eq_false hq1), if_neg (of_decide_eq_false hq2),
        if_neg (of_decide_eq_false hq3), if_neg (of_decide_eq_false hq4)]
    rw [mapQuotes, List.map_cons, hc']
    exact congrArg (List.cons c) (ih hcs)

theorem mapQuotes_noPair (bad : Char → Char → Bool)
    (hpres : ∀ a b, bad (normQuote a) (normQuote b) = bad a b) :
    ∀ l, noPair bad l = true → noPair bad (mapQuotes l) = true := by
  intro l
  induction l with
  | nil => intro _; rfl
  | cons a l ih =>
    intro h
    cases l with
    | nil => rfl
    | cons b bs =>
      have hlink := noPair_head_link h
      have ih2 := ih (noPair_tail h)
      rw [mapQuotes, List.map_cons, List.map_cons]
      refine noPair_cons ih2 ?_
      intro y hy
      cases hy
      rw [hpres]
      exact hlink

theorem mapQuotes_allWsBlank (l : List Char) (h : allWsBlank l = true) :
    allWsBlank (mapQuotes l) = true := by
  induction l with
  | nil => rfl
  | cons c cs ih =>
    have ht := allWsBlank_tail h
    rw [mapQuotes, List.map_cons]
    refine allWsBlank_cons ?_ (ih ht)
    rw [normQuote_ws]
    cases hw : isWs c
    · simp
    · have hcb := allWsBlank_head h hw
      subst hcb
      decide

/-! ## Punctuation-spacing repair (space before punctuation) -/

theorem fixBeforeF_nil : ∀ n, fixBeforeF n [] = [] := by
  intro n; cases n <;> rfl

theorem fixBeforeF_nws {n : Nat} {c : Char} {cs : List Char} (hc : isWs c = false) :
    fixBeforeF (n + 1) (c :: cs) = c :: fixBeforeF n cs := by
  simp [fixBeforeF, hc]

theorem fixBeforeF_ws_punct {n : Nat} {c p : Char} {cs rest : List Char}
    (hc : isWs c = true) (hd : cs.dropWhile isWs = p :: rest) (hp : isPunct p = true) :
    fixBeforeF (n + 1) (c :: cs) = p :: fixBeforeF n rest := by
  simp [fixBeforeF, hc, hd, hp]

theorem fixBeforeF_ws_nopunct {n : Nat} {c p : Char} {cs rest : List Char}
    (hc : isWs c = true) (hd : cs.dropWhile isWs = p :: rest) (hp : isPunct p = false) :
    fixBeforeF (n + 1) (c :: cs) = c :: fixBeforeF n cs := by
  simp [fixBeforeF, hc, hd, hp]

theorem fixBeforeF_ws_nil {n : Nat} {c : Char} {cs : List Char}
    (hc : isWs c = true) (hd : cs.dropWhile isWs = []) :
    fixBeforeF (n + 1) (c :: cs) = c :: fixBeforeF n cs := by
  simp [fixBeforeF, hc, hd]

theorem fixBefore_head (f : Nat) (l : List Char)
    (h : ∀ c, l.head? = some c → isWs c = false) :
    (fixBeforeF f l).head? = l.head? := by
  cases f with
  | zero => rfl
  | succ n =>
    cases l with
    | nil => rfl
    | cons c cs =>
      rw [fixBeforeF_nws (h c rfl)]
      rfl

theorem fixBefore_all (P : Char → Bool) :
    ∀ (f : Nat) (l : List Char), l.all P = true → (fixBeforeF f l).all P = true := by
  intro f
  induction f with
  | zero => intro l h; exact h
  | succ n ih =>
    intro l h
    cases l with
    | nil => exact h
    | cons c cs =>
      rw [List.all_cons, Bool.and_eq_true] at h
      by_cases hc : isWs c = true
      · cases hd : cs.dropWhile isWs with
        | nil =>
          rw [fixBeforeF_ws_nil hc hd, List.all_cons, Bool.and_eq_true]
          exact ⟨h.1, ih cs h.2⟩
        | cons p rest =>
          by_cases hp : isPunct p = true
          · rw [fixBeforeF_ws_punct hc hd hp, List.all_cons, Bool.and_eq_true]
            have hall : (cs.dropWhile isWs).all P = true := all_dropWhile P isWs cs h.2
            rw [hd, List.all_cons, Bool.and_eq_true] at hall
            exact ⟨hall.1, ih rest hall.2⟩
          · rw [fixBeforeF_ws_nopunct hc hd (by simpa using hp), List.all_cons,
              Bool.and_eq_true]
            exact ⟨h.1, ih cs h.2⟩
      · rw [fixBeforeF_nws (by simpa using hc), List.all_cons, Bool.and_eq_true]
        exact ⟨h.1, ih cs h.2⟩

theorem fixBefore_inv :
    ∀ (f : Nat) (l : List Char), l.length < f →
      allWsBlank l = true → noDoubleWs l = true →
      noDoubleWs (fixBeforeF f l) = true ∧ noWsPunct (fixBeforeF f l) = true := by
  intro f
  induction f with
  | zero => intro l h; omega
  | succ n ih =>
    intro l hl h1 h2
    cases l with
    | nil => exact ⟨rfl, rfl⟩
    | cons c cs =>
      have hcs : cs.length < n := by simpa using hl
      have h1t := allWsBlank_tail h1
      have h2t := noPair_tail h2
      by_cases hc : isWs c = true
      · cases cs with
        | nil =>
          rw [fixBeforeF_ws_nil hc (show List.dropWhile isWs ([] : List Char) = [] from rfl), fixBeforeF_nil]
          exact ⟨rfl, rfl⟩
        | cons d ds =>
          have hdw : isWs d = false := by
            have := noPair_head_link h2
            rw [hc] at this
            simpa using this
          have hd : (d :: ds).dropWhile isWs = d :: ds :=
            List.dropWhile_cons_of_neg (by simp [hdw])
          by_cases hp : isPunct d = true
          · rw [fixBeforeF_ws_punct hc hd hp]
            have hds : ds.length < n := by
              simp only [List.length_cons] at hcs
              omega
            obtain ⟨i2, i3⟩ := ih ds hds (allWsBlank_tail h1t) (noPair_tail h2t)
            constructor
            · exact noPair_cons i2 (fun b _ => by simp [not_ws_of_punct hp])
            · exact noPair_cons i3 (fun b _ => by simp [not_ws_of_punct hp])
          · have hp' : isPunct d = false := by simpa using hp
            rw [fixBeforeF_ws_nopunct hc hd hp']
            obtain ⟨i2, i3⟩ := ih (d :: ds) hcs h1t h2t
            have hhd : (fixBeforeF n (d :: ds)).head? = some d := by
              rw [fixBefore_head n _ (fun x hx => by cases hx; exact hdw)]
              rfl
            constructor
            · apply noPair_cons i2
              intro b hb
              rw [hhd] at hb
              cases hb
              simp [hdw]
            · apply noPair_cons i3
              intro b hb
              rw [hhd] at hb
              cases hb
              simp [hp']
      · have hc' : isWs c = false := by simpa using hc
        rw [fixBeforeF_nws hc']
        obtain ⟨i2, i3⟩ := ih cs hcs h1t h2t
        constructor
        · exact noPair_cons i2 (fun b _ => by simp [hc'])
        · exact noPair_cons i3 (fun b _ => by simp [hc'])

theorem fixBefore_id :
    ∀ (f : Nat) (l : List Char), l.length < f →
      noDoubleWs l = true → noWsPunct l = true → fixBeforeF f l = l := by
  intro f
  induction f with
  | zero => intro l h; omega
  | succ n ih =>
    intro l hl h2 h3
    cases l with
    | nil => rfl
    | cons c cs =>
      have hcs : cs.length < n := by simpa using hl
      by_cases hc : isWs c = true
      · cases cs with
        | nil => rw [fixBeforeF_ws_nil hc (show List.dropWhile isWs ([] : List Char) = [] from rfl), fixBeforeF_nil]
        | cons d ds =>
          have hdw : isWs d = false := by
            have := noPair_head_link h2
            rw [hc] at this
            simpa using this
          have hd : (d :: ds).dropWhile isWs = d :: ds :=
            List.dropWhile_cons_of_neg (by simp [hdw])
          have hp' : isPunct d = false := by
            have := noPair_head_link h3
            rw [hc] at this
            simpa using this
          rw [fixBeforeF_ws_nopunct hc hd hp',
            ih (d :: ds) hcs (noPair_tail h2) (noPair_tail h3)]
      · rw [fixBeforeF_nws (by simpa using hc),
          ih cs hcs (noPair_tail h2) (noPair_tail h3)]

/-! ## Punctuation-spacing repair (space after punctuation) -/

theorem fixAfterF_pair_pos {n : Nat} {c d : Char} {cs : List Char}
    (h : (isPunct c && d.isAlpha) = true) :
    fixAfterF (n + 1) (c :: d :: cs) = c :: ' ' :: d :: fixAfterF n cs := by
  simp [fixAfterF, h]

theorem fixAfterF_pair_neg {n : Nat} {c d : Char} {cs : List Char}
    (h : (isPunct c && d.isAlpha) = false) :
    fixAfterF (n + 1) (c :: d :: cs) = c :: fixAfterF n (d :: cs) := by
  simp [fixAfterF, h]

theorem fixAfter_head : ∀ (f : Nat) (l : List Char), (fixAfterF f l).head? = l.head? := by
  intro f
  cases f with
  | zero => intro l; rfl
  | succ n =>
    intro l
    rcases l with _ | ⟨c, _ | ⟨d, cs⟩⟩
    · rfl
    · rfl
    · by_cases h : (isPunct c && d.isAlpha) = true
      · rw [fixAfterF_pair_pos h]
        rfl
      · rw [fixAfterF_pair_neg (by simpa using h)]
        rfl

theorem fixAfter_all (P : Char → Bool) (hsp : P ' ' = true) :
    ∀ (f : Nat) (l : List Char), l.all P = true → (fixAfterF f l).all P = true := by
  intro f
  induction f with
  | zero => intro l h; exact h
  | succ n ih =>
    intro l h
    rcases l with _ | ⟨c, _ | ⟨d, cs⟩⟩
    · exact h
    · exact h
    · rw [List.all_cons, List.all_cons, Bool.and_eq_true, Bool.and_eq_true] at h
      obtain ⟨hc, hd, hcs⟩ := h
      by_cases hb : (isPunct c && d.isAlpha) = true
      · rw [fixAfterF_pair_pos hb]
        simp only [List.all_cons, Bool.and_eq_true]
        exact ⟨hc, hsp, hd, ih cs hcs⟩
      · rw [fixAfterF_pair_neg (by simpa using hb), List.all_cons, Bool.and_eq_true]
        refine ⟨hc, ih (d :: cs) ?_⟩
        rw [List.all_cons, Bool.and_eq_true]
        exact ⟨hd, hcs⟩

theorem fixAfter_inv :
    ∀ (f : Nat) (l : List Char), l.length < f →
      noDoubleWs l = true → noWsPunct l = true →
      noDoubleWs (fixAfterF f l) = true ∧ noWsPunct (fixAfterF f l) = true
        ∧ noPunctAlpha (fixAfterF f l) = true := by
  intro f
  induction f with
  | zero => intro l h; omega
  | succ n ih =>
    intro l hl h2 h3
    rcases l with _ | ⟨c, _ | ⟨d, cs⟩⟩
    · exact ⟨rfl, rfl, rfl⟩
    · exact ⟨rfl, rfl, rfl⟩
    · have hcs2 : cs.length < n := by
        simp only [List.length_cons] at hl
        omega
      have hdcs : (d :: cs).length < n := by
        simp only [List.length_cons] at hl ⊢
        omega
      by_cases hb : (isPunct c && d.isAlpha) = true
      · rw [Bool.and_eq_true] at hb
        obtain ⟨hcp, hda⟩ := hb
        have hcw : isWs c = false := not_ws_of_punct hcp
        have hdw : isWs d = false := not_ws_of_alpha hda
        have hdp : isPunct d = false := not_punct_of_alpha hda
        rw [fixAfterF_pair_pos (by rw [hcp, hda]; rfl)]
        obtain ⟨i2, i3, i4⟩ :=
          ih cs hcs2 (noPair_tail (noPair_tail h2)) (noPair_tail (noPair_tail h3))
        have hd2 : noDoubleWs (d :: fixAfterF n cs) = true :=
          noPair_cons i2 (fun b _ => by simp [hdw])
        have hd3 : noWsPunct (d :: fixAfterF n cs) = true :=
          noPair_cons i3 (fun b _ => by simp [hdw])
        have hd4 : noPunctAlpha (d :: fixAfterF n cs) = true :=
          noPair_cons i4 (fun b _ => by simp [hdp])
        refine ⟨?_, ?_, ?_⟩
        · have hs2 : noDoubleWs (' ' :: d :: fixAfterF n cs) = true :=
            noPair_cons hd2 (fun b hb' => by cases hb'; simp [hdw])
          exact noPair_cons hs2 (fun b hb' => by cases hb'; simp [hcw])
        · have hs3 : noWsPunct (' ' :: d :: fixAfterF n cs) = true :=
            noPair_cons hd3 (fun b hb' => by cases hb'; simp [hdp])
          exact noPair_cons hs3 (fun b hb' => by cases hb'; simp [hcw])
        · have hs4 : noPunctAlpha (' ' :: d :: fixAfterF n cs) = true :=
            noPair_cons hd4 (fun b hb' => by
              cases hb'
              simp [show isPunct ' ' = false from by decide])
          exact noPair_cons hs4 (fun b hb' => by
            cases hb'
            simp [show Char.isAlpha ' ' = false from by decide])
      · have hb' : (isPunct c && d.isAlpha) = false := by simpa using hb
        rw [fixAfterF_pair_neg hb']
        obtain ⟨i2, i3, i4⟩ := ih (d :: cs) hdcs (noPair_tail h2) (noPair_tail h3)
        have hhd : (fixAfterF n (d :: cs)).head? = some d := by
          rw [fixAfter_head]
          rfl
        refine ⟨?_, ?_, ?_⟩
        · apply noPair_cons i2
          intro b hb2
          rw [hhd] at hb2
          cases hb2
          exact noPair_head_link h2
        · apply noPair_cons i3
          intro b hb2
          rw [hhd] at hb2
          cases hb2
          exact noPair_head_link h3
        · apply noPair_cons i4
          intro b hb2
          rw [hhd] at hb2
          cases hb2
          exact hb'

theorem fixAfter_id :
    ∀ (f : Nat) (l : List Char), l.length < f →
      noPunctAlpha l = true → fixAfterF f l = l := by
  intro f
  induction f with
  | zero => intro l h; omega
  | succ n ih =>
    intro l hl h4
    rcases l with _ | ⟨c, _ | ⟨d, cs⟩⟩
    · rfl
    · rfl
    · have hdcs : (d :: cs).length < n := by
        simp only [List.length_cons] at hl ⊢
        omega
      rw [fixAfterF_pair_neg (noPair_head_link h4), ih (d :: cs) hdcs (noPair_tail h4)]

/-! ## Final strip: invariants and fixpoint -/

theorem strip_decomp (l : List Char) :
    l = (l.reverse.dropWhile isWs).reverse ++ (l.reverse.takeWhile isWs).reverse := by
  have h2 : l.reverse.takeWhile isWs ++ l.reverse.dropWhile isWs = l.reverse :=
    List.takeWhile_append_dropWhile isWs l.reverse
  have h3 := congrArg List.reverse h2
  rw [List.reverse_append, List.reverse_reverse] at h3
  exact h3.symm

theorem strip_noPair (bad : Char → Char → Bool) (l : List Char)
    (h : noPair bad l = true) : noPair bad (stripEnds l) = true := by
  unfold stripEnds
  have h1 : noPair bad (l.dropWhile isWs) = true :=
    (noPair_append (l.takeWhile isWs) (l.dropWhile isWs)
      (by rw [List.takeWhile_append_dropWhile]; exact h)).2
  exact (noPair_append ((l.dropWhile isWs).reverse.dropWhile isWs).reverse
      ((l.dropWhile isWs).reverse.takeWhile isWs).reverse
      (by rw [← strip_decomp (l.dropWhile isWs)]; exact h1)).1

theorem strip_all (P : Char → Bool) (l : List Char) (h : l.all P = true) :
    (stripEnds l).all P = true := by
  unfold stripEnds
  have h1 : (l.dropWhile isWs).all P = true := all_dropWhile P isWs l h
  have h2 : (l.dropWhile isWs).reverse.all P = true := by simpa using h1
  have h3 := all_dropWhile P isWs _ h2
  simpa using h3

theorem strip_first (l : List Char) : firstNotWs (stripEnds l) := by
  unfold stripEnds firstNotWs
  intro c hc
  have hh : (l.dropWhile isWs).head? = some c := by
    rw [strip_decomp (l.dropWhile isWs), List.head?_append, hc]
    rfl
  exact dropWhile_headFails isWs l c hh

theorem strip_last (l : List Char) : lastNotWs (stripEnds l) := by
  unfold lastNotWs stripEnds firstNotWs
  intro c hc
  rw [List.reverse_reverse] at hc
  exact dropWhile_headFails isWs _ c hc

theorem strip_id (l : List Char) (h1 : firstNotWs l) (h2 : lastNotWs l) :
    stripEnds l = l := by
  unfold stripEnds
  rw [dropWhile_eq_self_of_headFails isWs l h1,
    dropWhile_eq_self_of_headFails isWs l.reverse h2]
  exact List.reverse_reverse l

/-! ## The whitespace tail establishes its own fixpoint invariants -/

theorem wsPass_inv (s : List Char) :
    allWsBlank (wsPass s) = true ∧ noDoubleWs (wsPass s) = true
    ∧ noWsPunct (wsPass s) = true ∧ noPunctAlpha (wsPass s) = true
    ∧ noSmartQuote (wsPass s) = true ∧ firstNotWs (wsPass s) ∧ lastNotWs (wsPass s) := by
  unfold wsPass
  obtain ⟨a1, a2⟩ :=
    collapse_inv (s.length + 1) s (Nat.lt_succ_self _)
  have b1 : allWsBlank (mapQuotes (collapseWs s)) = true :=
    mapQuotes_allWsBlank _ a1
  have b2 : noDoubleWs (mapQuotes (collapseWs s)) = true :=
    mapQuotes_noPair _ (fun a b => by rw [normQuote_ws, normQuote_ws]) _ a2
  have b5 : noSmartQuote (mapQuotes (collapseWs s)) = true :=
    noSmartQuote_mapQuotes _
  obtain ⟨c2, c3⟩ :=
    fixBefore_inv ((mapQuotes (collapseWs s)).length + 1) _ (Nat.lt_succ_self _) b1 b2
  have c1 : allWsBlank (fixBefore (mapQuotes (collapseWs s))) = true :=
    fixBefore_all _ _ _ b1
  have c5 : noSmartQuote (fixBefore (mapQuotes (collapseWs s))) = true :=
    fixBefore_all _ _ _ b5
  obtain ⟨d2, d3, d4⟩ :=
    fixAfter_inv ((fixBefore (mapQuotes (collapseWs s))).length + 1) _
      (Nat.lt_succ_self _) c2 c3
  have d1 : allWsBlank (fixAfter (fixBefore (mapQuotes (collapseWs s)))) = true :=
    fixAfter_all _ (by decide) _ _ c1
  have d5 : noSmartQuote (fixAfter (fixBefore (mapQuotes (collapseWs s)))) = true :=
    fixAfter_all _ (by decide) _ _ c5
  exact ⟨strip_all _ _ d1, strip_noPair _ _ d2, strip_noPair _ _ d3,
    strip_noPair _ _ d4, strip_all _ _ d5, strip_first _, strip_last _⟩

theorem wsPass_id (F : List Char)
    (h1 : allWsBlank F = true) (h2 : noDoubleWs F = true) (h3 : noWsPunct F = true)
    (h4 : noPunctAlpha F = true) (h5 : noSmartQuote F = true)
    (h6 : firstNotWs F) (h7 : lastNotWs F) : wsPass F = F := by
  unfold wsPass
  rw [show collapseWs F = F from collapse_id (F.length + 1) F (Nat.lt_succ_self _) h1 h2]
  rw [mapQuotes_id F h5]
  rw [show fixBefore F = F from fixBefore_id (F.length + 1) F (Nat.lt_succ_self _) h2 h3]
  rw [show fixAfter F = F from fixAfter_id (F.length + 1) F (Nat.lt_succ_self _) h4]
  exact strip_id F h6 h7

/-! ## Claim C2 -/

/-- C2 counterexample: in on-demand mode, after `load_stage1_model`,
calling `load_stage2_model` succeeds immediately — stage 1 is still
loaded, no unload is required, and with the claim's example footprints
(10GB and 30GB) the combined ready footprint 40GB exceeds the 35GB
budget at the end of the transition.  This refutes the claim that
loading B while A is ready "succeeds only after unload(A)" and that the
ready-footprint sum never exceeds the budget. -/
theorem C2_counterexample :
    (loadStage2 (loadStage1 initService)).s1.pipe = true
    ∧ (loadStage2 (loadStage1 initService)).s2.pipe = true
    ∧ readyFootprint 10 30 (loadStage2 (loadStage1 initService)) = 40
    ∧ ¬ (readyFootprint 10 30 (loadStage2 (loadStage1 initService)) ≤ 35) := by
  decide

/-- C2 amended: the lifecycle operations enforce no memory budget.
`load_stage2_model` always leaves stage 2 loaded and never touches
stage 1 (and symmetrically), so the combined ready footprint can exceed
any budget; staying within budget is the caller's responsibility — only
the explicit discipline of unloading stage 1 first brings the
post-transition footprint down to the single stage's footprint. -/
theorem C2_no_budget_enforcement (s : ServiceState) (f1 f2 : Nat) :
    (loadStage2 s).s2.pipe = true ∧ (loadStage2 s).s1 = s.s1
    ∧ (loadStage1 s).s1.pipe = true ∧ (loadStage1 s).s2 = s.s2
    ∧ readyFootprint f1 f2 (loadStage2 (unloadStage1 s)) = f2 := by
  obtain ⟨⟨m1, t1, p1⟩, ⟨m2, t2, p2⟩⟩ := s
  cases p1 <;> cases p2 <;>
    simp [loadStage1, loadStage2, unloadStage1, readyFootprint]

/-! ## Claim C3 -/

/-- C3 counterexample: a run with stage 1 skipped records `None` as
stage 1's output in the response (lines 453–454), not the stage's input
`"abc"` — refuting the claim that the recorded output of the skipped
stage equals its input. -/
theorem C3_counterexample :
    processText true true (fun l => l ++ toL "1") (fun l => l ++ toL "2")
        ⟨toL "abc", true, false⟩
      = .ok ⟨none, some (toL "abc2"), toL "abc2"⟩
    ∧ (none : Option (List Char)) ≠ some (toL "abc") := by
  decide

/-- C3 amended: skipping stage K does not invoke stage K's backend (the
result does not depend on it), and downstream stages and the final
output receive stage K's input unchanged; the response, however,
records `None` for the skipped stage's output field rather than the
pass-through text. -/
theorem C3_skip_passthrough (text : List Char)
    (g1 g1' g2 g2' : List Char → List Char) :
    processText true true g1 g2 ⟨text, true, false⟩
        = processText true true g1' g2 ⟨text, true, false⟩
    ∧ processText true true g1 g2 ⟨text, true, false⟩
        = .ok ⟨none, some (g2 text), if g2 text = [] then text else g2 text⟩
    ∧ processText true true g1 g2 ⟨text, false, true⟩
        = processText true true g1 g2' ⟨text, false, true⟩
    ∧ processText true true g1 g2 ⟨text, false, true⟩
        = .ok ⟨some (g1 text), none, g1 text⟩ := by
  refine ⟨?_, ?_, ?_, ?_⟩ <;> simp [processText]

/-! ## Claim C4 -/

/-- C4 counterexample: `"et al. [1] hello"` contains a bracketed
numeric citation, yet the normalized output still contains the literal
phrase `"et al."` — the `et_al` pattern `\s+et\s+al\.` requires leading
whitespace, so an occurrence at the start of the text survives. -/
theorem C4_counterexample :
    clean (toL "et al. [1] hello") true = .ok (toL "et al. hello")
    ∧ containsSeq (toL "et al.") (toL "et al. hello") = true
    ∧ containsSeq (toL "[1]") (toL "et al. [1] hello") = true := by
  decide

/-- C4 amended: for text containing a parenthetical author-year or
bracketed numeric citation, when normalization succeeds and the three
citation-removal substitutions leave the output unchanged (no span
survived the single non-rescanning pass and none was recreated by a
removal), the output contains no span matching the parenthetical
author-year pattern, none matching the bracketed numeric pattern, and
no whitespace-preceded `"et al."`; without that proviso an `"et al."`
at the start of the text survives (see the counterexample). -/
theorem C4_citation_removal (t F : List Char)
    (_hcit : existsMatchF (delStep citParensMatch) t = true
            ∨ existsMatchF (delStep citBracketsMatch) t = true)
    (_hF : clean t true = .ok F)
    (h1 : subParens F = F) (h2 : subBrackets F = F) (h3 : subEtAl F = F) :
    existsMatchF (delStep citParensMatch) F = false
    ∧ existsMatchF (delStep citBracketsMatch) F = false
    ∧ existsMatchF (delStep etAlMatch) F = false :=
  ⟨applySub_del_fix_no_match citParensMatch F h1,
   applySub_del_fix_no_match citBracketsMatch F h2,
   applySub_del_fix_no_match etAlMatch F h3⟩

/-- C4 witness. -/
theorem C4_witness :
    existsMatchF (delStep citParensMatch) (toL "See results") = false
    ∧ existsMatchF (delStep citBracketsMatch) (toL "See results") = false
    ∧ existsMatchF (delStep etAlMatch) (toL "See results") = false :=
  C4_citation_removal (toL "See (Smith, 2020) results") (toL "See results")
    (Or.inl (by decide)) (by decide) (by decide) (by decide) (by decide)

/-! ## Claim C5 -/

/-- C5: `clean_text` fails with the empty-input error exactly when the
input is empty or whitespace-only; for any other input it fails with a
collapse error (empty output, or output shorter than the minimum of 3
characters) exactly when the cleaned text has length below 3; and the
citation-only input `"(Smith, 2020)"` fails with the collapse error. -/
theorem C5_error_contract (t : List Char) (rc : Bool) :
    ((clean t rc = .error .emptyInput) ↔ t.all isWs = true)
    ∧ (t.all isWs = false →
        ((clean t rc = .error .emptyOutput ∨ clean t rc = .error .tooShort)
          ↔ (cleanedCore t rc).length < 3))
    ∧ clean (toL "(Smith, 2020)") true = .error .emptyOutput := by
  refine ⟨?_, ?_, by decide⟩
  · unfold clean
    split_ifs with h1 h2 h3 <;> simp_all
  · intro hall
    unfold clean
    split_ifs with h1 h2 h3 <;> simp_all

/-- C5 witness. -/
theorem C5_witness :
    (clean (toL "ab") true = .error .emptyOutput ∨ clean (toL "ab") true = .error .tooShort)
      ↔ (cleanedCore (toL "ab") true).length < 3 :=
  (C5_error_contract (toL "ab") true).2.1 (by decide)

/-! ## Claim C6 -/

/-- C6: a speed outside [0.5, 2.0] is rejected by request validation
with the invalid-parameter error, for any text, voice and engine state,
and the result does not depend on the generation backend — no audio
generation is attempted. -/
theorem C6_speed_validation (eng : EngineState)
    (create : List Char → List Char → ℚ → AudioOut) (pt : ℚ)
    (text : List Char) (voice : Option (List Char)) (q : ℚ)
    (pp rc : Bool) (hq : q < 1/2 ∨ 2 < q) :
    synthesizeApi eng create pt text voice (some q) pp rc = .error .invalidParameter
    ∧ ∀ create', synthesizeApi eng create pt text voice (some q) pp rc
        = synthesizeApi eng create' pt text voice (some q) pp rc := by
  have hreq : mkSynthesizeRequest text voice (some q) pp rc = .error .invalidParameter := by
    unfold mkSynthesizeRequest
    have hs : (decide (q < 1/2) || decide (2 < q)) = true := by
      rcases hq with h | h
      · rw [decide_eq_true h, Bool.true_or]
      · rw [decide_eq_true h, Bool.or_true]
    split_ifs with h1 h2 <;> rfl
  have key : ∀ cr : List Char → List Char → ℚ → AudioOut,
      synthesizeApi eng cr pt text voice (some q) pp rc = .error .invalidParameter := by
    intro cr
    unfold synthesizeApi
    rw [hreq]
  exact ⟨key create, fun c' => (key create).trans (key c').symm⟩

/-- C6 witness. -/
theorem C6_witness :
    synthesizeApi ⟨true, [toL "af_sarah"], toL "af_sarah", 1⟩
        (fun _ _ _ => ⟨24000, 24000⟩) 1 (toL "hello") none (some 3) true true
      = .error .invalidParameter :=
  (C6_speed_validation _ _ _ _ _ 3 _ _ (Or.inr (by norm_num))).1

/-! ## Claim C8 -/

/-- C8: for each stage, load is a no-op when the stage is already
loaded and unload is a no-op when it is already unloaded; both are
idempotent, and after unload the stage's model state is unloaded. -/
theorem C8_lifecycle_idempotent (s : ServiceState) :
    (loadStage1 (loadStage1 s) = loadStage1 s
      ∧ (s.s1.pipe = true → loadStage1 s = s)
      ∧ unloadStage1 (unloadStage1 s) = unloadStage1 s
      ∧ (s.s1.pipe = false → unloadStage1 s = s)
      ∧ (unloadStage1 s).s1.pipe = false)
    ∧ (loadStage2 (loadStage2 s) = loadStage2 s
      ∧ (s.s2.pipe = true → loadStage2 s = s)
      ∧ unloadStage2 (unloadStage2 s) = unloadStage2 s
      ∧ (s.s2.pipe = false → unloadStage2 s = s)
      ∧ (unloadStage2 s).s2.pipe = false) := by
  obtain ⟨⟨m1, t1, p1⟩, ⟨m2, t2, p2⟩⟩ := s
  cases p1 <;> cases p2 <;>
    simp [loadStage1, loadStage2, unloadStage1, unloadStage2]

/-- C8 witness. -/
theorem C8_witness :
    loadStage1 (loadStage1 initService) = loadStage1 initService
    ∧ unloadStage1 initService = initService :=
  ⟨(C8_lifecycle_idempotent initService).1.1,
   (C8_lifecycle_idempotent initService).1.2.2.2.1 rfl⟩

/-! ## Claim C9 -/

/-- C9 counterexample: with the model loaded and a valid default voice,
`synthesize` with the empty-string voice — which is not a member of the
available voice set — succeeds instead of failing with
`VoiceNotFoundError`: line 348 (`voice = voice or self.default_voice`)
treats the empty string as absent. -/
theorem C9_counterexample :
    synthesizeEngine ⟨true, [toL "af_sarah"], toL "af_sarah", 1⟩
        (fun _ _ _ => ⟨24000, 24000⟩) 1 (toL "hello world") (some []) none false true
      = .ok (⟨24000, 24000⟩, computeMeta 1 24000 24000)
    ∧ ([] : List Char) ∉ ([toL "af_sarah"] : List (List Char)) := by
  refine ⟨rfl, by decide⟩

/-- C9 amended: with the model loaded, a provided non-empty voice that
is not in the currently loaded voice set makes `synthesize` fail with
`VoiceNotFoundError` carrying the first 10 valid voices, and any member
of the available voices passes voice validation (and `synthesize` never
fails with `VoiceNotFoundError` for it); an empty-string voice is
treated as absent and replaced by the default voice. -/
theorem C9_voice_validation (eng : EngineState)
    (create : List Char → List Char → ℚ → AudioOut) (pt : ℚ)
    (text v : List Char) (speed : Option ℚ) (pp rc : Bool)
    (hl : eng.loaded = true) (hv : v ≠ []) :
    (v ∉ eng.availableVoices →
      synthesizeEngine eng create pt text (some v) speed pp rc
        = .error (.voiceNotFound (eng.availableVoices.take 10)))
    ∧ (v ∈ eng.availableVoices →
        validateVoice eng v = .ok ()
        ∧ ∀ s, synthesizeEngine eng create pt text (some v) speed pp rc
            ≠ .error (.voiceNotFound s)) := by
  constructor
  · intro hnv
    simp [synthesizeEngine, effectiveVoice, validateVoice, hl, hv, hnv]
  · intro hv2
    have hval : validateVoice eng v = .ok () := by simp [validateVoice, hl, hv2]
    refine ⟨hval, ?_⟩
    intro s
    simp only [synthesizeEngine, effectiveVoice, hl, Bool.not_true,
      Bool.false_eq_true, if_false, if_neg hv, hval]
    split <;> simp

/-- C9 witness. -/
theorem C9_witness :
    synthesizeEngine ⟨true, [toL "af_sarah"], toL "af_sarah", 1⟩
        (fun _ _ _ => ⟨10, 24000⟩) 1 (toL "hi there") (some (toL "nope")) none false true
      = .error (.voiceNotFound [toL "af_sarah"])
    ∧ validateVoice ⟨true, [toL "af_sarah"], toL "af_sarah", 1⟩ (toL "af_sarah") = .ok () := by
  constructor
  · exact (C9_voice_validation ⟨true, [toL "af_sarah"], toL "af_sarah", 1⟩
      (fun _ _ _ => ⟨10, 24000⟩) 1 (toL "hi there") (toL "nope") none false true
      rfl (by decide)).1 (by decide)
  · exact ((C9_voice_validation ⟨true, [toL "af_sarah"], toL "af_sarah", 1⟩
      (fun _ _ _ => ⟨10, 24000⟩) 1 (toL "hi there") (toL "af_sarah") none false true
      rfl (by decide)).2 (by decide)).1

/-! ## Claim C10 -/

/-- C10: the real-time-factor computation is division-guarded — with a
positive sample rate, zero audio samples give `rtf = 0`, and otherwise
`rtf = processing_time / (sample_count / sample_rate)`. -/
theorem C10_rtf_guard (pt : ℚ) (samples rate : Nat) (hr : 0 < rate) :
    (samples = 0 → (computeMeta pt samples rate).rtf = 0)
    ∧ (samples ≠ 0 →
        (computeMeta pt samples rate).rtf = pt / ((samples : ℚ) / (rate : ℚ))) := by
  constructor
  · intro h
    subst h
    simp [computeMeta]
  · intro h
    have hd : (0 : ℚ) < (samples : ℚ) / (rate : ℚ) := by
      apply div_pos
      · exact_mod_cast Nat.pos_of_ne_zero h
      · exact_mod_cast hr
    simp [computeMeta, hd]

/-- C10 witness. -/
theorem C10_witness :
    (computeMeta 2 0 24000).rtf = 0
    ∧ (computeMeta 3 48000 24000).rtf = 3 / ((48000 : ℚ) / (24000 : ℚ)) :=
  ⟨(C10_rtf_guard 2 0 24000 (by norm_num)).1 rfl,
   (C10_rtf_guard 3 48000 24000 (by norm_num)).2 (by norm_num)⟩

/-! ## Claim C7 -/

/-- C7: `remove_citations` gates exactly the citation-removal passes:
with it false, `clean_text` applies precisely the non-citation
categories (URL/email removal, equation placeholders, command
stripping, parenthetical abbreviations, whitespace and quote
normalization); with it true the same categories are applied after the
citation passes.  Concretely, `"(Smith, 2020) hello"` keeps its
citation with `remove_citations=false` and loses it with `true`. -/
theorem C7_remove_citations_gating :
    (∀ t : List Char, cleanedCore t false = specNonCitationCategories t)
    ∧ (∀ t : List Char, cleanedCore t true = specNonCitationCategories (citationPass t))
    ∧ clean (toL "(Smith, 2020) hello") false = .ok (toL "(Smith, 2020) hello")
    ∧ clean (toL "(Smith, 2020) hello") true = .ok (toL "hello") :=
  ⟨fun _ => rfl, fun _ => rfl, by decide, by decide⟩

/-! ## Claim C1 (counterexample) -/

/-- C1 counterexample: normalization is not idempotent.  For
`"Hello et et al. al. world"` the single `re.sub` pass removes the
inner `" et al."` and — because replaced text is never rescanned —
leaves a new `"et al."` in the output; a second `clean_text`
application removes it, so the second application differs from the
first. -/
theorem C1_counterexample :
    clean (toL "Hello et et al. al. world") true = .ok (toL "Hello et al. world")
    ∧ clean (toL "Hello et al. world") true = .ok (toL "Hello world")
    ∧ toL "Hello et al. world" ≠ toL "Hello world" := by
  decide

/-- C1 amended: for every text `T` on which normalization succeeds, if
the removal substitutions (citations, URLs, emails, LaTeX spans and
commands, parenthetical abbreviations) leave the normalized output
unchanged, then applying the full rule set to that output yields it
back unchanged — `normalize(normalize(T)) = normalize(T)`.  The
whitespace/quote/punctuation tail is unconditionally a fixpoint on its
own output; only a removal pattern re-matching the first pass's output
(see the counterexample) breaks idempotence. -/
theorem C1_normalize_idempotent (t : List Char) (rc : Bool) (F : List Char)
    (hclean : clean t rc = .ok F) (hfix : removalPass F rc = F) :
    clean F rc = .ok F := by
  unfold clean at hclean
  split_ifs at hclean with h1 h2 h3
  have hF : wsPass (removalPass t rc) = F := Except.ok.inj hclean
  obtain ⟨i1, i2, i3, i4, i5, i6, i7⟩ := wsPass_inv (removalPass t rc)
  rw [hF] at i1 i2 i3 i4 i5 i6 i7
  have hne : ¬(F = []) := by
    rw [← hF]
    exact h2
  have hlen : ¬(F.length < 3) := by
    rw [← hF]
    exact h3
  have hall : F.all isWs = false := by
    cases F with
    | nil => exact absurd rfl hne
    | cons c cs =>
      rw [List.all_cons, i6 c rfl]
      rfl
  unfold clean
  rw [if_neg (by simp [hall])]
  have hcF : cleanedCore F rc = F := by
    unfold cleanedCore
    rw [hfix]
    exact wsPass_id F i1 i2 i3 i4 i5 i6 i7
  rw [hcF, if_neg hne, if_neg hlen]

/-- C1 witness. -/
theorem C1_witness : clean (toL "Hello world.") true = .ok (toL "Hello world.") :=
  C1_normalize_idempotent (toL "Hello world.") true (toL "Hello world.")
    (by decide) (by decide)
